import Mathlib

set_option linter.unusedVariables false

/-!
Shallow embedding of the prediction-market pallet
(`pallets/template/src/lib.rs`): the data model, the storage state, the
reservable-currency collaborator, the dispatchable calls and the block
hooks, plus an operation-trace semantics used for the invariant claims.

Balances, block numbers and weights are `Nat`; `Balance` arithmetic in the
source is unsigned with `checked_sub`/`saturating_sub`, which `Nat`
subtraction models directly.  Storage maps are association lists whose
order stands for the (unspecified) storage iteration order.  The external
`ReservableCurrency` collaborator is modelled with an existential deposit
of zero and no balance locks, which matches the runtime configuration the
pallet assumes (no lock pallets are consulted by `ensure_can_withdraw`).
-/

/-- Account identifiers: ordinary signers, plus the per-market pallet
sub-account derived by `PalletId::into_sub_account_truncating(market_id)`
(injective for distinct market ids, and distinct from every signer). -/
inductive AccountId where
  | user : Nat → AccountId
  | palletSub : Nat → AccountId
  deriving DecidableEq, Repr

/-- Model of `Pallet::market_account` (lib.rs:518). -/
def market_account (market_id : Nat) : AccountId :=
  AccountId.palletSub market_id

/-- Source enum `MarketStatus` (lib.rs:35). -/
inductive MarketStatus where
  | Active
  | Closed
  | Reported
  | Redeemed
  deriving DecidableEq, Repr

/-- Source struct `Market` (lib.rs:43); the source field `end` is a Lean
keyword, so it is called `end_` here. -/
structure Market where
  creator : AccountId
  bond : Nat
  data : List Nat
  end_ : Nat
  oracle : AccountId
  oracle_outcome_report : Option Nat
  status : MarketStatus
  deriving DecidableEq, Repr

/-- Source struct `Outcome` (lib.rs:54). -/
structure Outcome where
  owner : AccountId
  data : List Nat
  price : Nat
  deriving DecidableEq, Repr

/-- Pallet errors (lib.rs:154), plus `BadOrigin` for `ensure_root`
failures and `BalancesError` for dispatch errors propagated from the
`Currency` collaborator (failed transfer/reserve). -/
inductive Error where
  | OutcomesStorageOverflow
  | MarketCounterStorageOverflow
  | MarketIdsPerCloseBlockStorageOverflow
  | InvalidOutcomeIndex
  | MarketNotFound
  | PriceTooLow
  | OutcomeAmountTooLow
  | InsufficientBuyerBalance
  | BelowMinMarketPeriod
  | MarketNotActive
  | CallerNotOracle
  | OutcomeAlreadyReported
  | OutcomeNotReportedYet
  | InvalidMarketStatus
  | InsufficientCreatorBalance
  | OnlyMarketCreatorAllowedYet
  | Invalid
  | BadOrigin
  | BalancesError
  deriving DecidableEq, Repr

/-- Pallet events (lib.rs:142). -/
inductive Event where
  | MarketCreated (market_id : Nat) (creator : AccountId)
  | MarketDestroyed (market_id : Nat)
  | OutcomeBought (market_id : Nat) (outcome_index : Nat) (buyer : AccountId)
  | MarketsToCloseNextBlock (market_ids : List Nat)
  | MarketClosed (market_id : Nat)
  | MarketReported (market_id : Nat) (oracle_report_outcome : Nat)
  | MarketRedeemed (market_id : Nat) (winner_outcome : Nat) (winner : AccountId)
  | HighestOutcome (market_id : Nat) (highest_outcome : Option Nat)
  deriving DecidableEq, Repr

/-- Runtime configuration constants (the `Config` trait, lib.rs:90).
`doSomething` is the weight `T::WeightInfo::do_something()`. -/
structure Config where
  creatorBond : Nat
  marketCreatorClearStorageTime : Nat
  maxOutcomes : Nat
  minMarketPeriod : Nat
  doSomething : Nat
  deriving DecidableEq, Repr

/-- Capacity of a `MarketIdsPerCloseBlock` bucket (`CacheSize`, lib.rs:83). -/
def cacheSize : Nat := 64

/-- Largest `u128` value; `MarketCounter` is a `u128`. -/
def u128Max : Nat := 2 ^ 128 - 1

/-- Association-list lookup, modelling `StorageMap::get` for maps with
`OptionQuery`. -/
def alookup {κ α : Type} [DecidableEq κ] : List (κ × α) → κ → Option α
  | [], _ => none
  | p :: t, k => if p.1 = k then some p.2 else alookup t k

/-- Association-list insert, modelling `StorageMap::insert`: replaces the
binding in place when the key is present, otherwise appends. -/
def ainsert {κ α : Type} [DecidableEq κ] : List (κ × α) → κ → α → List (κ × α)
  | [], k, v => [(k, v)]
  | p :: t, k, v => if p.1 = k then (k, v) :: t else p :: ainsert t k v

/-- Association-list removal, modelling `StorageMap::remove`. -/
def aremove {κ α : Type} [DecidableEq κ] : List (κ × α) → κ → List (κ × α)
  | [], _ => []
  | p :: t, k => if p.1 = k then aremove t k else p :: aremove t k

/-- Persisted pallet storage plus the collaborators it reads: the current
block number (`frame_system`) and the free/reserved balance ledgers
(`T::Currency`).  `outcomes` and `marketIdsPerCloseBlock` are `ValueQuery`
maps in the source: an absent key reads as the empty vector. -/
structure PalletState where
  now : Nat
  marketCounter : Nat
  markets : List (Nat × Market)
  outcomes : List (Nat × List Outcome)
  marketIdsPerCloseBlock : List (Nat × List Nat)
  frees : List (AccountId × Nat)
  reserveds : List (AccountId × Nat)
  deriving DecidableEq, Repr

/-- Genesis state: `MarketCounter` defaults to 1 (`DefaultMarketCounter`,
lib.rs:113). -/
def initState : PalletState :=
  { now := 0, marketCounter := 1, markets := [], outcomes := [],
    marketIdsPerCloseBlock := [], frees := [], reserveds := [] }

/-- Model of `T::Currency::free_balance`. -/
def free_balance (s : PalletState) (a : AccountId) : Nat :=
  (alookup s.frees a).getD 0

/-- Model of the reserved balance held by `T::Currency` for an account. -/
def reserved_balance (s : PalletState) (a : AccountId) : Nat :=
  (alookup s.reserveds a).getD 0

def setFree (s : PalletState) (a : AccountId) (n : Nat) : PalletState :=
  { s with frees := ainsert s.frees a n }

def setReserved (s : PalletState) (a : AccountId) (n : Nat) : PalletState :=
  { s with reserveds := ainsert s.reserveds a n }

/-- Model of `T::Currency::can_reserve` (existential deposit zero, no
locks): the account can cover the amount from its free balance. -/
def can_reserve (s : PalletState) (a : AccountId) (amount : Nat) : Prop :=
  amount ≤ free_balance s a

instance (s : PalletState) (a : AccountId) (amount : Nat) :
    Decidable (can_reserve s a amount) :=
  inferInstanceAs (Decidable (amount ≤ free_balance s a))

/-- Model of `T::Currency::reserve`: moves the amount from free to
reserved, failing when the free balance cannot cover it. -/
def reserve (s : PalletState) (a : AccountId) (amount : Nat) : Option PalletState :=
  if amount ≤ free_balance s a then
    let s1 := setFree s a (free_balance s a - amount)
    some (setReserved s1 a (reserved_balance s1 a + amount))
  else none

/-- Model of `T::Currency::unreserve`: moves `min amount reserved` from
reserved back to free; the unmoved remainder is returned by the source and
ignored by the pallet. -/
def unreserve (s : PalletState) (a : AccountId) (amount : Nat) : PalletState :=
  let moved := min amount (reserved_balance s a)
  let s1 := setFree s a (free_balance s a + moved)
  setReserved s1 a (reserved_balance s1 a - moved)

/-- Model of `T::Currency::repatriate_reserved` with `BalanceStatus::Free`:
moves `min amount reserved` from the slashed account's reserved balance to
the beneficiary's free balance. -/
def repatriate_reserved (s : PalletState) (slashed beneficiary : AccountId)
    (amount : Nat) : PalletState :=
  if slashed = beneficiary then unreserve s slashed amount
  else
    let moved := min amount (reserved_balance s slashed)
    let s1 := setReserved s slashed (reserved_balance s slashed - moved)
    setFree s1 beneficiary (free_balance s1 beneficiary + moved)

/-- Model of `T::Currency::transfer` with
`ExistenceRequirement::AllowDeath` and existential deposit zero: fails
when the source's free balance cannot cover the amount; a self-transfer is
a successful no-op. -/
def transfer (s : PalletState) (src dst : AccountId) (amount : Nat) :
    Option PalletState :=
  if amount ≤ free_balance s src then
    if src = dst then some s
    else
      let s1 := setFree s src (free_balance s src - amount)
      some (setFree s1 dst (free_balance s1 dst + amount))
  else none

def isOkE {ε α : Type} : Except ε α → Bool
  | Except.ok _ => true
  | Except.error _ => false

/-- The `for i in 0..outcome_amount` loop of `create_market` (lib.rs:260):
pushes `remaining` zero-priced outcomes owned by the creator onto the
bounded vector, each push failing with `OutcomesStorageOverflow` once the
`MaxOutcomes` bound is reached.  `i` is the source loop index, used as the
outcome's data byte. -/
def buildOutcomes (c : Config) (who : AccountId) :
    Nat → Nat → List Outcome → Except Error (List Outcome)
  | 0, _, outs => Except.ok outs
  | remaining + 1, i, outs =>
    if outs.length < c.maxOutcomes then
      buildOutcomes c who remaining (i + 1)
        (outs ++ [{ owner := who, data := List.replicate 32 i, price := 0 }])
    else Except.error Error.OutcomesStorageOverflow

/-- Dispatchable `create_market` (lib.rs:232).  An error carries the state
at the point of failure, so that partial writes (none are expected: that is
claim C6) would be observable. -/
def create_market (c : Config) (s : PalletState) (who : AccountId)
    (outcome_amount : Nat) (end_ : Nat) (oracle : AccountId) :
    Except (Error × PalletState) PalletState :=
  let bond := c.creatorBond
  if ¬ can_reserve s who bond then Except.error (Error.InsufficientCreatorBalance, s)
  else if outcome_amount = 0 then Except.error (Error.OutcomeAmountTooLow, s)
  else
    let now := s.now
    -- `end.saturating_sub(now) >= MinMarketPeriod`; Nat subtraction saturates
    if end_ - now < c.minMarketPeriod then Except.error (Error.BelowMinMarketPeriod, s)
    else
      let market_id := s.marketCounter
      -- `market_id.checked_add(1)` on `u128`
      if u128Max ≤ market_id then Except.error (Error.MarketCounterStorageOverflow, s)
      else
        let new_counter := market_id + 1
        let outcomes0 := (alookup s.outcomes market_id).getD []
        match buildOutcomes c who outcome_amount 0 outcomes0 with
        | Except.error e => Except.error (e, s)
        | Except.ok outcomes =>
          let market : Market :=
            { creator := who, bond := bond, data := List.replicate 32 0,
              end_ := end_, oracle := oracle, oracle_outcome_report := none,
              status := MarketStatus.Active }
          let prev_ids := (alookup s.marketIdsPerCloseBlock end_).getD []
          -- `MarketIdsPerCloseBlock::try_mutate` with a bounded push
          if cacheSize ≤ prev_ids.length then
            Except.error (Error.MarketIdsPerCloseBlockStorageOverflow, s)
          else
            let bucket := ainsert s.marketIdsPerCloseBlock end_ (prev_ids ++ [market_id])
            let s1 := { s with marketIdsPerCloseBlock := bucket }
            -- the close-schedule bucket is already written when `reserve` runs
            match reserve s1 who bond with
            | none => Except.error (Error.BalancesError, s1)
            | some s2 =>
              let s3 := { s2 with outcomes := ainsert s2.outcomes market_id outcomes }
              let s4 := { s3 with markets := ainsert s3.markets market_id market }
              Except.ok { s4 with marketCounter := new_counter }

/-- Dispatchable `destroy_market` (lib.rs:298); `root` models whether the
origin passes `ensure_root`. -/
def destroy_market (s : PalletState) (root : Bool) (market_id : Nat) :
    Except (Error × PalletState) PalletState :=
  if ¬ root then Except.error (Error.BadOrigin, s)
  else if (alookup s.markets market_id).isNone then
    Except.error (Error.MarketNotFound, s)
  else
    Except.ok { s with markets := aremove s.markets market_id,
                       outcomes := aremove s.outcomes market_id }

/-- Body of dispatchable `buy_outcome` (lib.rs:320).  The source line 366
assigns `outcome.owner = who` on the local copy of the outcomes vector
obtained from `Outcomes::get`, never assigns `outcome.price`, and no
`Outcomes::insert` follows, so storage keeps the old owner and old price:
the successful result state differs from the input state only in the two
balance transfers. -/
def buy_outcome_inner (c : Config) (s : PalletState) (who : AccountId)
    (market_id outcome_index price : Nat) :
    Except (Error × PalletState) PalletState :=
  let buyer_balance := free_balance s who
  -- `buyer_balance.checked_sub(&price)`; `ensure_can_withdraw` never
  -- fails with no lock pallets configured
  if buyer_balance < price then Except.error (Error.InsufficientBuyerBalance, s)
  else
    match alookup s.markets market_id with
    | none => Except.error (Error.MarketNotFound, s)
    | some market =>
      if market.status ≠ MarketStatus.Active then
        Except.error (Error.MarketNotActive, s)
      else
        let outcomes := (alookup s.outcomes market_id).getD []
        match outcomes.get? outcome_index with
        | none => Except.error (Error.InvalidOutcomeIndex, s)
        | some outcome =>
          if ¬ outcome.price < price then Except.error (Error.PriceTooLow, s)
          else
            let macct := market_account market_id
            let afterRefund : Except (Error × PalletState) PalletState :=
              if outcome.price ≠ 0 then
                match transfer s macct outcome.owner outcome.price with
                | none => Except.error (Error.BalancesError, s)
                | some s' => Except.ok s'
              else Except.ok s
            match afterRefund with
            | Except.error e => Except.error e
            | Except.ok s1 =>
              match transfer s1 who macct price with
              | none => Except.error (Error.BalancesError, s1)
              | some s2 => Except.ok s2

/-- Dispatchable `buy_outcome`: the `#[frame_support::transactional]`
attribute (lib.rs:319) rolls every write back on error. -/
def buy_outcome (c : Config) (s : PalletState) (who : AccountId)
    (market_id outcome_index price : Nat) :
    Except (Error × PalletState) PalletState :=
  match buy_outcome_inner c s who market_id outcome_index price with
  | Except.ok s' => Except.ok s'
  | Except.error (e, _) => Except.error (e, s)

/-- Dispatchable `report_as_oracle` (lib.rs:377). -/
def report_as_oracle (s : PalletState) (who : AccountId)
    (market_id outcome_index : Nat) :
    Except (Error × PalletState) PalletState :=
  match alookup s.markets market_id with
  | none => Except.error (Error.MarketNotFound, s)
  | some market =>
    if market.oracle_outcome_report.isSome then
      Except.error (Error.OutcomeAlreadyReported, s)
    else if market.status ≠ MarketStatus.Closed then
      Except.error (Error.InvalidMarketStatus, s)
    else if market.oracle ≠ who then
      Except.error (Error.CallerNotOracle, s)
    else
      let market' := { market with oracle_outcome_report := some outcome_index,
                                   status := MarketStatus.Reported }
      Except.ok { s with markets := ainsert s.markets market_id market' }

/-- Dispatchable `redeem` (lib.rs:404).  The caller is only checked by
`ensure_signed` and does not influence behaviour. -/
def redeem (s : PalletState) (_who : AccountId) (market_id : Nat) :
    Except (Error × PalletState) PalletState :=
  match alookup s.markets market_id with
  | none => Except.error (Error.MarketNotFound, s)
  | some market =>
    match market.oracle_outcome_report with
    | none => Except.error (Error.OutcomeNotReportedYet, s)
    | some reported_index =>
      let outcomes := (alookup s.outcomes market_id).getD []
      match outcomes.get? reported_index with
      | none => Except.error (Error.InvalidOutcomeIndex, s)
      | some outcome =>
        let macct := market_account market_id
        let reward := free_balance s macct
        match transfer s macct outcome.owner reward with
        | none => Except.error (Error.BalancesError, s)
        | some s1 =>
          let market' := { market with status := MarketStatus.Redeemed }
          Except.ok { s1 with markets := ainsert s1.markets market_id market' }

/-- Dispatchable `clear_storage` (lib.rs:444). -/
def clear_storage (c : Config) (s : PalletState) (who : AccountId)
    (market_id : Nat) : Except (Error × PalletState) PalletState :=
  match alookup s.markets market_id with
  | none => Except.error (Error.MarketNotFound, s)
  | some market =>
    if market.status ≠ MarketStatus.Redeemed then
      Except.error (Error.InvalidMarketStatus, s)
    else if s.now - market.end_ ≤ c.marketCreatorClearStorageTime ∧
        market.creator ≠ who then
      Except.error (Error.OnlyMarketCreatorAllowedYet, s)
    else
      let s1 := if who ≠ market.creator then
          repatriate_reserved s market.creator who market.bond
        else unreserve s market.creator market.bond
      Except.ok { s1 with markets := aremove s1.markets market_id,
                          outcomes := aremove s1.outcomes market_id }

/-- The loop body of the `on_initialize` hook (lib.rs:182): every market
listed in the due bucket that still exists is set to `Closed` and a
`MarketClosed` event is emitted. -/
def closeMarkets : PalletState → List Nat → PalletState × List Event
  | s, [] => (s, [])
  | s, market_id :: rest =>
    match alookup s.markets market_id with
    | some market =>
      let ms := ainsert s.markets market_id { market with status := MarketStatus.Closed }
      let s' : PalletState := { s with markets := ms }
      let r := closeMarkets s' rest
      (r.1, Event.MarketClosed market_id :: r.2)
    | none => closeMarkets s rest

/-- The `on_initialize` hook (lib.rs:176): drains the close bucket for
block `n`, closing every still-existing market in it.  (Weight accounting
of this hook is not modelled; no claim concerns it.) -/
def on_initialize_impl (s : PalletState) (n : Nat) : PalletState × List Event :=
  let market_ids := (alookup s.marketIdsPerCloseBlock n).getD []
  let r := closeMarkets s market_ids
  ({ r.1 with marketIdsPerCloseBlock := aremove r.1.marketIdsPerCloseBlock n },
   r.2)

/-- Model of Rust's `Iterator::max_by_key` over the enumerated outcome
list, keyed by price: when several elements are equally maximal, the LAST
one is returned, so the accumulated best is replaced whenever the next
element's key is greater than or equal. -/
def maxByPriceLast (l : List (Nat × Outcome)) : Option (Nat × Outcome) :=
  l.foldl
    (fun acc p =>
      match acc with
      | none => some p
      | some q => if q.2.price ≤ p.2.price then some p else some q)
    none

/-- The highest-outcome computation of `emit_highest_outcomes`
(lib.rs:506): `outcomes.iter().enumerate().max_by_key(price).map(index)`. -/
def highest_outcome (outcomes : List Outcome) : Option Nat :=
  (maxByPriceLast outcomes.enum).map (fun p => p.1)

/-- Helper `emit_highest_outcomes` (lib.rs:503): scans the first `count`
entries of the `Outcomes` storage map, emitting a `HighestOutcome` event
per scanned market, and returns the accumulated weight.  The source binds
`total_weight` immutably to zero and discards the result of
`total_weight.saturating_add(do_something())` inside the loop, so the
returned weight is always zero; `_dropped` reproduces that discarded
computation. -/
def emit_highest_outcomes (c : Config) (s : PalletState) (count : Nat) :
    Nat × List Event :=
  (s.outcomes.take count).foldl
    (fun acc p =>
      let ev := Event.HighestOutcome p.1 (highest_outcome p.2)
      let _dropped := acc.1 + c.doSomething
      (acc.1, acc.2 ++ [ev]))
    (0, [])

/-- The `on_idle` hook (lib.rs:204): divides the remaining weight by the
per-market unit (`checked_div_per_component`, `none` when the unit is
zero), runs the scan with that budget, and subtracts the reported
consumption. -/
def on_idle (c : Config) (s : PalletState) (remaining_weight : Nat) : Nat :=
  if c.doSomething = 0 then remaining_weight
  else
    let count := remaining_weight / c.doSomething
    let consumed := (emit_highest_outcomes c s count).1
    remaining_weight - consumed

/-- One externally triggered operation, for trace reasoning. `nextBlock`
is one driver step: the block number advances by one and `on_initialize`
runs for the new block.  (`on_finalize` and `on_idle` mutate no pallet
storage and are omitted from traces.) -/
inductive Op where
  | create (who : AccountId) (outcome_amount : Nat) (end_ : Nat) (oracle : AccountId)
  | destroy (root : Bool) (market_id : Nat)
  | buy (who : AccountId) (market_id outcome_index price : Nat)
  | reportOp (who : AccountId) (market_id outcome_index : Nat)
  | redeemOp (who : AccountId) (market_id : Nat)
  | clearOp (who : AccountId) (market_id : Nat)
  | nextBlock
  deriving DecidableEq, Repr

/-- Dispatch outcome applied to the chain state: FRAME dispatch is
transactional, so a failed extrinsic reverts all of its writes. -/
def settle (s : PalletState) (r : Except (Error × PalletState) PalletState) :
    PalletState :=
  match r with
  | Except.ok s' => s'
  | Except.error _ => s

def applyOp (c : Config) (s : PalletState) : Op → PalletState
  | Op.create who n e o => settle s (create_market c s who n e o)
  | Op.destroy root mid => settle s (destroy_market s root mid)
  | Op.buy who mid i p => settle s (buy_outcome c s who mid i p)
  | Op.reportOp who mid i => settle s (report_as_oracle s who mid i)
  | Op.redeemOp who mid => settle s (redeem s who mid)
  | Op.clearOp who mid => settle s (clear_storage c s who mid)
  | Op.nextBlock =>
    let s1 := { s with now := s.now + 1 }
    (on_initialize_impl s1 s1.now).1

def runOps (c : Config) : PalletState → List Op → PalletState
  | s, [] => s
  | s, op :: rest => runOps c (applyOp c s op) rest

/-- The market ids assigned by the successful `create_market` calls of a
trace, in order. -/
def createdIds (c : Config) : PalletState → List Op → List Nat
  | _, [] => []
  | s, op :: rest =>
    let tail := createdIds c (applyOp c s op) rest
    match op with
    | Op.create who n e o =>
      if isOkE (create_market c s who n e o) then s.marketCounter :: tail
      else tail
    | _ => tail

/-- Sum of the stored outcome prices of a market, the quantity the escrow
invariant compares with the escrow account balance. -/
def sumPrices (outs : List Outcome) : Nat :=
  (outs.map (fun o => o.price)).sum

/-! Concrete scenarios used by the bug-exhibiting theorems, the
counterexamples and the witnesses. -/

/-- Scenario configuration: bond 5, grace window 10 blocks, at most 8
outcomes, minimum period 1 block, per-scan weight unit 5. -/
def cfgA : Config :=
  { creatorBond := 5, marketCreatorClearStorageTime := 10, maxOutcomes := 8,
    minMarketPeriod := 1, doSomething := 5 }

/-- Scenario genesis: two funded signers. -/
def s0A : PalletState :=
  { initState with frees := [(AccountId.user 1, 100), (AccountId.user 2, 100)] }

/-- Scenario: signer 1 creates a two-outcome market ending at block 50
with signer 3 as oracle; this becomes market 1. -/
def s1A : PalletState :=
  applyOp cfgA s0A (Op.create (AccountId.user 1) 2 50 (AccountId.user 3))

/-- Scenario: signer 2 buys outcome 0 of market 1 at price 10. -/
def s2A : PalletState :=
  applyOp cfgA s1A (Op.buy (AccountId.user 2) 1 0 10)


/-- Scenario state for the redeem status gap: market 1 is already
`Redeemed` with report 0 recorded, one outcome, empty escrow. -/
def stC3 : PalletState :=
  { initState with
    marketCounter := 2,
    markets := [(1,
      { creator := AccountId.user 1, bond := 5, data := List.replicate 32 0,
        end_ := 3, oracle := AccountId.user 3,
        oracle_outcome_report := some 0, status := MarketStatus.Redeemed })],
    outcomes := [(1,
      [{ owner := AccountId.user 2, data := List.replicate 32 0, price := 0 }])],
    frees := [(AccountId.user 2, 90)] }

/-- Two-market state for the weight claim. -/
def stC4 : PalletState :=
  { initState with outcomes :=
    [(1, [{ owner := AccountId.user 1, data := List.replicate 32 0, price := 3 }]),
     (2, [{ owner := AccountId.user 2, data := List.replicate 32 0, price := 4 }])] }

/-- One market with two equally priced outcomes, for the tie-break claim. -/
def stC5 : PalletState :=
  { initState with outcomes :=
    [(1, [{ owner := AccountId.user 1, data := List.replicate 32 0, price := 7 },
          { owner := AccountId.user 2, data := List.replicate 32 1, price := 7 }])] }


/-- Modelled from the spec: the index of the highest-priced outcome with
ties broken by the FIRST occurrence in index order (the spec's wording for
the idle scan), for comparison with the source's `highest_outcome`. -/
def highest_outcome_first_tie (outcomes : List Outcome) : Option Nat :=
  (outcomes.enum.foldl
    (fun acc p =>
      match acc with
      | none => some p
      | some q => if q.2.price < p.2.price then some p else some q)
    none).map (fun p => p.1)

/-- Scenario: market 1 is `Closed` with no report yet; signer 3 is its
oracle; it has a single outcome. -/
def stC7 : PalletState :=
  { initState with
    marketCounter := 2,
    markets := [(1,
      { creator := AccountId.user 1, bond := 5, data := List.replicate 32 0,
        end_ := 3, oracle := AccountId.user 3,
        oracle_outcome_report := none, status := MarketStatus.Closed })],
    outcomes := [(1,
      [{ owner := AccountId.user 1, data := List.replicate 32 0, price := 0 }])] }

/-- Scenario: market 7 is `Redeemed`, its creator still holds the 5-unit
bond in reserve, and the clock is still inside the grace window. -/
def stC9 : PalletState :=
  { initState with
    now := 15,
    marketCounter := 8,
    markets := [(7,
      { creator := AccountId.user 1, bond := 5, data := List.replicate 32 0,
        end_ := 10, oracle := AccountId.user 3,
        oracle_outcome_report := some 0, status := MarketStatus.Redeemed })],
    outcomes := [(7,
      [{ owner := AccountId.user 2, data := List.replicate 32 0, price := 0 }])],
    frees := [(AccountId.user 1, 20)],
    reserveds := [(AccountId.user 1, 5)] }

/-- Scenario: market 1 is `Reported` with the out-of-range report index 5
recorded against its single-outcome list. -/
def stC10 : PalletState :=
  { initState with
    marketCounter := 2,
    markets := [(1,
      { creator := AccountId.user 1, bond := 5, data := List.replicate 32 0,
        end_ := 3, oracle := AccountId.user 3,
        oracle_outcome_report := some 5, status := MarketStatus.Reported })],
    outcomes := [(1,
      [{ owner := AccountId.user 1, data := List.replicate 32 0, price := 0 }])],
    frees := [(AccountId.user 1, 20), (AccountId.palletSub 1, 9)],
    reserveds := [(AccountId.user 1, 5)] }

/-- Trace used by the C10 witness: a redeem attempt, a block advance and a
clear attempt after the bad report. -/
def opsC10 : List Op :=
  [Op.redeemOp (AccountId.user 2) 1, Op.nextBlock, Op.clearOp (AccountId.user 1) 1]

/-- Trace used by the C8 witness: two successful creates around a failed
create and an unrelated destroy. -/
def opsC8 : List Op :=
  [Op.create (AccountId.user 1) 2 50 (AccountId.user 3),
   Op.create (AccountId.user 2) 0 60 (AccountId.user 3),
   Op.destroy true 1,
   Op.create (AccountId.user 2) 1 60 (AccountId.user 3)]

/-- The poisoned-market predicate of claim C10: the market id is below
the counter (true of every id the pallet ever assigned), and if the market
still exists it carries an oracle report whose index is out of range for
its outcome list and its status is not `Redeemed`. -/
def LockedBad (s : PalletState) (mid : Nat) : Prop :=
  mid < s.marketCounter ∧
  ∀ m, alookup s.markets mid = some m →
    (∃ i, m.oracle_outcome_report = some i ∧
      ((alookup s.outcomes mid).getD []).length ≤ i) ∧
    m.status ≠ MarketStatus.Redeemed

/-! Association-list and currency-operation lemmas. -/

theorem alookup_ainsert_self {κ α : Type} [DecidableEq κ]
    (l : List (κ × α)) (k : κ) (v : α) : alookup (ainsert l k v) k = some v := by
  induction l with
  | nil => simp [ainsert, alookup]
  | cons p t ih =>
    by_cases h : p.1 = k
    · simp [ainsert, h, alookup]
    · simp [ainsert, h, alookup, ih]

theorem alookup_ainsert_ne {κ α : Type} [DecidableEq κ]
    (l : List (κ × α)) (k k' : κ) (v : α) (h : k' ≠ k) :
    alookup (ainsert l k v) k' = alookup l k' := by
  have hkk : k ≠ k' := fun hh => h hh.symm
  induction l with
  | nil => simp [ainsert, alookup, hkk]
  | cons p t ih =>
    by_cases hp : p.1 = k
    · subst hp
      simp [ainsert, alookup, hkk]
    · simp only [ainsert, if_neg hp, alookup]
      by_cases hp' : p.1 = k'
      · simp [hp']
      · simp [hp', ih]

theorem alookup_aremove_self {κ α : Type} [DecidableEq κ]
    (l : List (κ × α)) (k : κ) : alookup (aremove l k) k = none := by
  induction l with
  | nil => simp [aremove, alookup]
  | cons p t ih =>
    by_cases h : p.1 = k
    · simp [aremove, h, ih]
    · simp [aremove, h, alookup, ih]

theorem alookup_aremove_ne {κ α : Type} [DecidableEq κ]
    (l : List (κ × α)) (k k' : κ) (h : k' ≠ k) :
    alookup (aremove l k) k' = alookup l k' := by
  induction l with
  | nil => simp [aremove]
  | cons p t ih =>
    by_cases hp : p.1 = k
    · subst hp
      have hne : p.1 ≠ k' := fun hh => h hh.symm
      simp [aremove, alookup, hne, ih]
    · simp only [aremove, if_neg hp, alookup]
      by_cases hp' : p.1 = k'
      · simp [hp']
      · simp [hp', ih]

theorem transfer_fields {s s' : PalletState} {a b : AccountId} {n : Nat}
    (h : transfer s a b n = some s') :
    s'.now = s.now ∧ s'.marketCounter = s.marketCounter ∧
    s'.markets = s.markets ∧ s'.outcomes = s.outcomes ∧
    s'.marketIdsPerCloseBlock = s.marketIdsPerCloseBlock ∧
    s'.reserveds = s.reserveds := by
  unfold transfer at h
  split at h
  · split at h
    · cases h
      exact ⟨rfl, rfl, rfl, rfl, rfl, rfl⟩
    · cases h
      simp [setFree]
  · simp at h

/-- C1: after the successful `buy_outcome(1, 0, 10)` by signer 2 on the
freshly created market 1, the stored outcome record still carries the old
owner (signer 1, the creator) and the old price 0 — the source mutates
only a local copy of the outcomes vector, assigns no new price, and never
writes the vector back, so the claim fails on the code. -/
theorem C1_buy_does_not_persist_outcome :
    isOkE (buy_outcome cfgA s1A (AccountId.user 2) 1 0 10) = true ∧
    ((alookup s2A.outcomes 1).getD []).get? 0 =
      some { owner := AccountId.user 1, data := List.replicate 32 0, price := 0 } ∧
    (alookup s2A.outcomes 1).getD [] = (alookup s1A.outcomes 1).getD [] := by
  decide

/-- C2: after the same successful buy, market 1 is still `Active`, the sum
of its stored outcome prices is 0, yet its escrow sub-account holds the 10
units the buyer paid — the escrow-equals-price-sum invariant fails. -/
theorem C2_escrow_mismatch_after_buy :
    (alookup s2A.markets 1).map Market.status = some MarketStatus.Active ∧
    sumPrices ((alookup s2A.outcomes 1).getD []) = 0 ∧
    free_balance s2A (market_account 1) = 10 := by
  decide

/-- C4: the idle scan over the two-market state with budget 2 scans both
markets (two `HighestOutcome` events) but returns weight 0 instead of the
claimed two `do_something` units (10): the source discards every
`saturating_add` onto the immutably-zero `total_weight`. -/
theorem C4_emit_weight_is_zero :
    (emit_highest_outcomes cfgA stC4 2).1 = 0 ∧
    (emit_highest_outcomes cfgA stC4 2).2.length = 2 ∧
    2 * cfgA.doSomething = 10 := by
  decide

/-- C3 counterexample: market 1 of `stC3` has status `Redeemed`, not
`Reported`, yet `redeem` succeeds on it — `redeem` never checks the
status, only that a report exists and its index is in range. -/
theorem C3_redeem_succeeds_on_redeemed :
    (alookup stC3.markets 1).map Market.status = some MarketStatus.Redeemed ∧
    isOkE (redeem stC3 (AccountId.user 9) 1) = true := by
  decide

/-- C5 counterexample: market 1 of `stC5` has two outcomes of equal price
7; the idle scan emits index 1 (the LAST maximal index), while the spec's
first-occurrence tie-break names index 0. -/
theorem C5_tie_broken_by_last_not_first :
    (emit_highest_outcomes cfgA stC5 1).2 = [Event.HighestOutcome 1 (some 1)] ∧
    highest_outcome_first_tie ((alookup stC5.outcomes 1).getD []) = some 0 := by
  decide

/-- A transfer of an account's whole free balance always succeeds. -/
theorem transfer_full_ok (s : PalletState) (a b : AccountId) :
    ∃ s', transfer s a b (free_balance s a) = some s' := by
  unfold transfer
  rw [if_pos (le_refl _)]
  by_cases h : a = b
  · exact ⟨s, by rw [if_pos h]⟩
  · exact ⟨_, by rw [if_neg h]⟩

/-- C3 (amended): `redeem` succeeds exactly when the market exists, an
oracle report has been recorded, and the reported index is within the
outcome list; the status field is never consulted, so a second `redeem` on
an already `Redeemed` market succeeds as well (paying out the now-empty
escrow again).  Every failing `redeem` leaves the state unchanged. -/
theorem C3_redeem_success_iff (s : PalletState) (who : AccountId) (mid : Nat) :
    (isOkE (redeem s who mid) = true ↔
      ∃ m, alookup s.markets mid = some m ∧
        ∃ i, m.oracle_outcome_report = some i ∧
          i < ((alookup s.outcomes mid).getD []).length) ∧
    (∀ e s', redeem s who mid = Except.error (e, s') → s' = s) := by
  unfold redeem
  cases hm : alookup s.markets mid with
  | none =>
    dsimp only
    refine ⟨by simp [isOkE], ?_⟩
    intro e s' h
    injection h with h1
    exact (congrArg Prod.snd h1).symm
  | some m =>
    dsimp only
    cases hr : m.oracle_outcome_report with
    | none =>
      dsimp only
      refine ⟨?_, ?_⟩
      · simp only [isOkE]
        refine iff_of_false (by simp) ?_
        rintro ⟨m', hm', i', hi', hlt⟩
        injection hm' with hmm
        subst hmm
        rw [hr] at hi'
        cases hi'
      · intro e s' h
        injection h with h1
        exact (congrArg Prod.snd h1).symm
    | some i =>
      dsimp only
      cases ho : ((alookup s.outcomes mid).getD []).get? i with
      | none =>
        dsimp only
        have hlen := List.get?_eq_none.1 ho
        refine ⟨?_, ?_⟩
        · simp only [isOkE]
          refine iff_of_false (by simp) ?_
          rintro ⟨m', hm', i', hi', hlt⟩
          injection hm' with hmm
          subst hmm
          rw [hr] at hi'
          injection hi' with hii
          subst hii
          omega
        · intro e s' h
          injection h with h1
          exact (congrArg Prod.snd h1).symm
      | some o =>
        dsimp only
        obtain ⟨s1, hs1⟩ := transfer_full_ok s (market_account mid) o.owner
        rw [hs1]
        dsimp only
        have hlt := (List.get?_eq_some.1 ho).1
        refine ⟨?_, ?_⟩
        · simp only [isOkE]
          exact iff_of_true trivial ⟨m, rfl, i, hr, hlt⟩
        · intro e s' h
          cases h

/-- C3 witness: the amended success condition instantiated at `stC3`. -/
theorem C3_redeem_success_iff_witness :
    isOkE (redeem stC3 (AccountId.user 9) 1) = true :=
  (C3_redeem_success_iff stC3 (AccountId.user 9) 1).1.mpr
    ⟨{ creator := AccountId.user 1, bond := 5, data := List.replicate 32 0,
       end_ := 3, oracle := AccountId.user 3,
       oracle_outcome_report := some 0, status := MarketStatus.Redeemed },
     by decide, 0, rfl, by decide⟩

/-- C7: `report_as_oracle` succeeds exactly when the market exists, no
report is recorded yet, the market's status is `Closed`, and the caller is
the designated oracle.  The outcome index does not occur in the success
condition: an out-of-range index is accepted at report time. -/
theorem C7_report_success_iff (s : PalletState) (who : AccountId)
    (mid idx : Nat) :
    isOkE (report_as_oracle s who mid idx) = true ↔
      ∃ m, alookup s.markets mid = some m ∧ m.oracle_outcome_report = none ∧
        m.status = MarketStatus.Closed ∧ m.oracle = who := by
  unfold report_as_oracle
  cases hm : alookup s.markets mid with
  | none => simp [isOkE]
  | some m =>
    dsimp only
    cases hr : m.oracle_outcome_report with
    | some j =>
      simp only [Option.isSome_some, if_true]
      simp only [isOkE]
      refine iff_of_false (by simp) ?_
      rintro ⟨m', hm', hnone, _, _⟩
      injection hm' with hmm
      subst hmm
      rw [hr] at hnone
      cases hnone
    | none =>
      simp only [Option.isSome_none, Bool.false_eq_true, if_false]
      by_cases h2 : m.status ≠ MarketStatus.Closed
      · rw [if_pos h2]
        simp only [isOkE]
        refine iff_of_false (by simp) ?_
        rintro ⟨m', hm', _, hst, _⟩
        injection hm' with hmm
        subst hmm
        exact h2 hst
      · rw [if_neg h2]
        by_cases h3 : m.oracle ≠ who
        · rw [if_pos h3]
          simp only [isOkE]
          refine iff_of_false (by simp) ?_
          rintro ⟨m', hm', _, _, hor⟩
          injection hm' with hmm
          subst hmm
          exact h3 hor
        · rw [if_neg h3]
          simp only [isOkE]
          exact iff_of_true trivial ⟨m, rfl, hr, not_not.1 h2, not_not.1 h3⟩

/-- C7 witness: the oracle's report with the out-of-range index 99 is
accepted on the closed, unreported market 1 of `stC7`. -/
theorem C7_report_success_iff_witness :
    isOkE (report_as_oracle stC7 (AccountId.user 3) 1 99) = true :=
  (C7_report_success_iff stC7 (AccountId.user 3) 1 99).mpr
    ⟨{ creator := AccountId.user 1, bond := 5, data := List.replicate 32 0,
       end_ := 3, oracle := AccountId.user 3,
       oracle_outcome_report := none, status := MarketStatus.Closed },
     by decide, rfl, rfl, rfl⟩

/-- C6: `create_market` is atomic — every failing call returns the state
exactly as it was before the call.  The only failure point after a storage
write is the bond reserve (the close-schedule bucket is written first),
and the `can_reserve` check performed at the top guarantees that reserve
cannot fail, because the bucket write does not change balances. -/
theorem C6_create_market_atomic (c : Config) (s : PalletState)
    (who : AccountId) (outcome_amount end_ : Nat) (oracle : AccountId)
    (err : Error × PalletState)
    (h : create_market c s who outcome_amount end_ oracle = Except.error err) :
    err.2 = s := by
  unfold create_market at h
  dsimp only at h
  split at h
  · exact (congrArg Prod.snd (Except.error.inj h)).symm
  next hcan =>
    split at h
    · exact (congrArg Prod.snd (Except.error.inj h)).symm
    next hamount =>
      split at h
      · exact (congrArg Prod.snd (Except.error.inj h)).symm
      next hperiod =>
        split at h
        · exact (congrArg Prod.snd (Except.error.inj h)).symm
        next hcounter =>
          split at h
          next e heq => exact (congrArg Prod.snd (Except.error.inj h)).symm
          next outs heq =>
            split at h
            · exact (congrArg Prod.snd (Except.error.inj h)).symm
            next hbucket =>
              split at h
              next hres =>
                have hc : c.creatorBond ≤ free_balance s who := not_not.1 hcan
                unfold reserve at hres
                split at hres
                · cases hres
                next hno => exact absurd hc hno
              next s2 hres => simp at h

/-- C6 witness: the concrete failing create (zero outcomes) returns the
untouched scenario genesis state. -/
theorem C6_create_market_atomic_witness :
    (Error.OutcomeAmountTooLow, s0A).2 = s0A :=
  C6_create_market_atomic cfgA s0A (AccountId.user 1) 0 50 (AccountId.user 3)
    (Error.OutcomeAmountTooLow, s0A) (by rfl)

/-! Balance-update projection lemmas. -/

theorem free_setFree_self (s : PalletState) (a : AccountId) (n : Nat) :
    free_balance (setFree s a n) a = n := by
  simp [free_balance, setFree, alookup_ainsert_self]

theorem free_setFree_ne (s : PalletState) (a b : AccountId) (n : Nat)
    (h : b ≠ a) : free_balance (setFree s a n) b = free_balance s b := by
  simp [free_balance, setFree, alookup_ainsert_ne _ _ _ _ h]

theorem reserved_setReserved_self (s : PalletState) (a : AccountId) (n : Nat) :
    reserved_balance (setReserved s a n) a = n := by
  simp [reserved_balance, setReserved, alookup_ainsert_self]

theorem reserved_setReserved_ne (s : PalletState) (a b : AccountId) (n : Nat)
    (h : b ≠ a) : reserved_balance (setReserved s a n) b = reserved_balance s b := by
  simp [reserved_balance, setReserved, alookup_ainsert_ne _ _ _ _ h]

theorem free_setReserved (s : PalletState) (a b : AccountId) (n : Nat) :
    free_balance (setReserved s a n) b = free_balance s b := rfl

theorem reserved_setFree (s : PalletState) (a b : AccountId) (n : Nat) :
    reserved_balance (setFree s a n) b = reserved_balance s b := rfl

theorem unreserve_free_self (s : PalletState) (a : AccountId) (n : Nat) :
    free_balance (unreserve s a n) a =
      free_balance s a + min n (reserved_balance s a) := by
  unfold unreserve
  rw [free_setReserved, free_setFree_self]

theorem unreserve_reserved_self (s : PalletState) (a : AccountId) (n : Nat) :
    reserved_balance (unreserve s a n) a =
      reserved_balance s a - min n (reserved_balance s a) := by
  unfold unreserve
  rw [reserved_setReserved_self, reserved_setFree]

theorem repatriate_free_beneficiary (s : PalletState)
    (slashed beneficiary : AccountId) (n : Nat) (h : slashed ≠ beneficiary) :
    free_balance (repatriate_reserved s slashed beneficiary n) beneficiary =
      free_balance s beneficiary + min n (reserved_balance s slashed) := by
  unfold repatriate_reserved
  rw [if_neg h]
  rw [free_setFree_self, free_setReserved]

theorem repatriate_reserved_slashed (s : PalletState)
    (slashed beneficiary : AccountId) (n : Nat) (h : slashed ≠ beneficiary) :
    reserved_balance (repatriate_reserved s slashed beneficiary n) slashed =
      reserved_balance s slashed - min n (reserved_balance s slashed) := by
  unfold repatriate_reserved
  rw [if_neg h]
  rw [reserved_setFree, reserved_setReserved_self]

/-- C9: `clear_storage` succeeds only on a `Redeemed` market; inside the
grace window a non-creator caller fails with the authorization error and
the state is unchanged; a non-`Redeemed` market fails with the status
error and the state is unchanged; on success the market and outcome
records are deleted and the bond leaves the creator's reserved balance —
into the creator's free balance when the caller is the creator
(`unreserve`), into the caller's free balance otherwise
(`repatriate_reserved`). -/
theorem C9_clear_storage_behaviour (c : Config) (s : PalletState)
    (who : AccountId) (mid : Nat) :
    (∀ s', clear_storage c s who mid = Except.ok s' →
      ∃ m, alookup s.markets mid = some m ∧ m.status = MarketStatus.Redeemed ∧
        alookup s'.markets mid = none ∧ alookup s'.outcomes mid = none ∧
        ((who = m.creator ∧
            free_balance s' m.creator =
              free_balance s m.creator + min m.bond (reserved_balance s m.creator) ∧
            reserved_balance s' m.creator =
              reserved_balance s m.creator - min m.bond (reserved_balance s m.creator)) ∨
         (who ≠ m.creator ∧
            free_balance s' who =
              free_balance s who + min m.bond (reserved_balance s m.creator) ∧
            reserved_balance s' m.creator =
              reserved_balance s m.creator - min m.bond (reserved_balance s m.creator)))) ∧
    (∀ m, alookup s.markets mid = some m → m.status ≠ MarketStatus.Redeemed →
      clear_storage c s who mid = Except.error (Error.InvalidMarketStatus, s)) ∧
    (∀ m, alookup s.markets mid = some m → m.status = MarketStatus.Redeemed →
      s.now - m.end_ ≤ c.marketCreatorClearStorageTime → who ≠ m.creator →
      clear_storage c s who mid = Except.error (Error.OnlyMarketCreatorAllowedYet, s)) := by
  refine ⟨?_, ?_, ?_⟩
  · intro s' hok
    unfold clear_storage at hok
    split at hok
    · cases hok
    next m hm =>
      dsimp only at hok
      split at hok
      · cases hok
      next hst =>
        split at hok
        · cases hok
        next hauth =>
          refine ⟨m, hm, not_not.1 hst, ?_⟩
          injection hok with hok'
          subst hok'
          by_cases hw : who = m.creator
          · rw [if_neg (not_not_intro hw)]
            refine ⟨alookup_aremove_self _ _, alookup_aremove_self _ _, Or.inl ⟨hw, ?_, ?_⟩⟩
            · exact unreserve_free_self s m.creator m.bond
            · exact unreserve_reserved_self s m.creator m.bond
          · rw [if_pos hw]
            refine ⟨alookup_aremove_self _ _, alookup_aremove_self _ _, Or.inr ⟨hw, ?_, ?_⟩⟩
            · exact repatriate_free_beneficiary s m.creator who m.bond (Ne.symm hw)
            · exact repatriate_reserved_slashed s m.creator who m.bond (Ne.symm hw)
  · intro m hm hst
    unfold clear_storage
    rw [hm]
    dsimp only
    rw [if_pos hst]
  · intro m hm hst hgrace hwho
    unfold clear_storage
    rw [hm]
    dsimp only
    rw [if_neg (not_not_intro hst), if_pos ⟨hgrace, Ne.symm hwho⟩]

/-- C9 witness: the creator's clear of the redeemed market 7 of `stC9`
(inside the grace window) deletes the market record. -/
theorem C9_clear_storage_behaviour_witness :
    alookup (settle stC9 (clear_storage cfgA stC9 (AccountId.user 1) 7)).markets 7 =
      none := by
  obtain ⟨m, hm, hst, hnone, _⟩ :=
    (C9_clear_storage_behaviour cfgA stC9 (AccountId.user 1) 7).1
      (settle stC9 (clear_storage cfgA stC9 (AccountId.user 1) 7)) (by rfl)
  exact hnone

/-- Unrolling `maxByPriceLast` over one appended element. -/
theorem maxByPriceLast_append (l : List (Nat × Outcome)) (p : Nat × Outcome) :
    maxByPriceLast (l ++ [p]) =
      match maxByPriceLast l with
      | none => some p
      | some q => if q.2.price ≤ p.2.price then some p else some q := by
  unfold maxByPriceLast
  rw [List.foldl_append]
  rfl

/-- Characterization of the source's `max_by_key` over the enumerated
outcome list: the result is an actual entry, its price is maximal, and
every strictly later entry has a strictly smaller price (equal maxima are
resolved in favour of the LAST occurrence). -/
theorem maxByPriceLast_enum_spec (outs : List Outcome) :
    (maxByPriceLast outs.enum = none → outs = []) ∧
    (∀ i o, maxByPriceLast outs.enum = some (i, o) →
      outs.get? i = some o ∧
      (∀ j o', outs.get? j = some o' → o'.price ≤ o.price) ∧
      (∀ j o', outs.get? j = some o' → i < j → o'.price < o.price)) := by
  induction outs using List.reverseRecOn with
  | nil =>
    refine ⟨fun _ => rfl, ?_⟩
    intro i o h
    cases h
  | append_singleton l x ih =>
    have henum : (l ++ [x]).enum = l.enum ++ [(l.length, x)] := by
      rw [List.enum_append]
      rfl
    rw [henum, maxByPriceLast_append]
    cases hprev : maxByPriceLast l.enum with
    | none =>
      have hl : l = [] := ih.1 hprev
      subst hl
      dsimp only
      refine ⟨fun h => by exact absurd h (by simp), ?_⟩
      intro i o h
      injection h with h1
      have hi : List.length ([] : List Outcome) = i := congrArg Prod.fst h1
      have ho : x = o := congrArg Prod.snd h1
      subst hi
      subst ho
      refine ⟨rfl, ?_, ?_⟩
      · intro j o' hj
        cases j with
        | zero =>
          injection hj with hj1
          subst hj1
          exact le_refl _
        | succ j' => cases hj
      · intro j o' hj hlt
        cases j with
        | zero => cases hlt
        | succ j' => cases hj
    | some q =>
      obtain ⟨i0, o0⟩ := q
      dsimp only
      have hq := ih.2 i0 o0 hprev
      have hi0 : i0 < l.length := (List.get?_eq_some.1 hq.1).1
      by_cases hle : o0.price ≤ x.price
      · rw [if_pos hle]
        refine ⟨fun h => by exact absurd h (by simp), ?_⟩
        intro i o h
        injection h with h1
        have hi : l.length = i := congrArg Prod.fst h1
        have ho : x = o := congrArg Prod.snd h1
        subst hi
        subst ho
        refine ⟨List.get?_concat_length l x, ?_, ?_⟩
        · intro j o' hj
          rcases Nat.lt_trichotomy j l.length with hlt | heq | hgt
          · rw [List.get?_append hlt] at hj
            exact le_trans (hq.2.1 j o' hj) hle
          · subst heq
            rw [List.get?_concat_length] at hj
            injection hj with hj1
            subst hj1
            exact le_refl _
          · have : (l ++ [x]).get? j = none := by
              apply List.get?_eq_none.2
              simp only [List.length_append, List.length_singleton]
              omega
            rw [this] at hj
            cases hj
        · intro j o' hj hlt
          have : (l ++ [x]).get? j = none := by
            apply List.get?_eq_none.2
            simp only [List.length_append, List.length_singleton]
            omega
          rw [this] at hj
          cases hj
      · rw [if_neg hle]
        have hxlt : x.price < o0.price := Nat.lt_of_not_le hle
        refine ⟨fun h => by exact absurd h (by simp), ?_⟩
        intro i o h
        injection h with h1
        have hi : i0 = i := congrArg Prod.fst h1
        have ho : o0 = o := congrArg Prod.snd h1
        subst hi
        subst ho
        refine ⟨by rw [List.get?_append hi0]; exact hq.1, ?_, ?_⟩
        · intro j o' hj
          rcases Nat.lt_trichotomy j l.length with hlt | heq | hgt
          · rw [List.get?_append hlt] at hj
            exact hq.2.1 j o' hj
          · subst heq
            rw [List.get?_concat_length] at hj
            injection hj with hj1
            subst hj1
            exact le_of_lt hxlt
          · have : (l ++ [x]).get? j = none := by
              apply List.get?_eq_none.2
              simp only [List.length_append, List.length_singleton]
              omega
            rw [this] at hj
            cases hj
        · intro j o' hj hlt
          rcases Nat.lt_trichotomy j l.length with hjlt | heq | hgt
          · rw [List.get?_append hjlt] at hj
            exact hq.2.2 j o' hj hlt
          · subst heq
            rw [List.get?_concat_length] at hj
            injection hj with hj1
            subst hj1
            exact hxlt
          · have : (l ++ [x]).get? j = none := by
              apply List.get?_eq_none.2
              simp only [List.length_append, List.length_singleton]
              omega
            rw [this] at hj
            cases hj

/-- The idle scan's result: weight zero and one `HighestOutcome` event per
scanned `Outcomes` entry, in storage order. -/
theorem emit_highest_outcomes_eq (c : Config) (s : PalletState) (count : Nat) :
    emit_highest_outcomes c s count =
      (0, (s.outcomes.take count).map
        (fun p => Event.HighestOutcome p.1 (highest_outcome p.2))) := by
  unfold emit_highest_outcomes
  suffices h : ∀ (l : List (Nat × List Outcome)) (acc : List Event),
      (l.foldl (fun acc p =>
        let ev := Event.HighestOutcome p.1 (highest_outcome p.2)
        let _dropped := acc.1 + c.doSomething
        (acc.1, acc.2 ++ [ev])) ((0 : Nat), acc)) =
      (0, acc ++ l.map (fun p => Event.HighestOutcome p.1 (highest_outcome p.2))) by
    simpa using h (s.outcomes.take count) []
  intro l
  induction l with
  | nil => intro acc; simp
  | cons p t ih =>
    intro acc
    rw [List.foldl_cons]
    dsimp only
    rw [ih]
    simp

/-- C5 (amended): every scanned market's event carries
`highest_outcome` of its outcome list, which is `none` exactly for an
empty list and otherwise the index of a maximal-price outcome with ties
broken by the LAST occurrence in index order: every entry's price is at
most the winner's, and every entry strictly after the winner is strictly
cheaper. -/
theorem C5_emit_highest_last_tie (c : Config) (s : PalletState) (count : Nat) :
    (emit_highest_outcomes c s count).2 =
      (s.outcomes.take count).map
        (fun p => Event.HighestOutcome p.1 (highest_outcome p.2)) ∧
    (∀ outs : List Outcome, (highest_outcome outs = none ↔ outs = [])) ∧
    (∀ outs : List Outcome, ∀ i : Nat, highest_outcome outs = some i →
      ∃ o, outs.get? i = some o ∧
        (∀ j o', outs.get? j = some o' → o'.price ≤ o.price) ∧
        (∀ j o', outs.get? j = some o' → i < j → o'.price < o.price)) := by
  refine ⟨by rw [emit_highest_outcomes_eq], ?_, ?_⟩
  · intro outs
    constructor
    · intro h
      unfold highest_outcome at h
      rcases hm : maxByPriceLast outs.enum with _ | p
      · exact (maxByPriceLast_enum_spec outs).1 hm
      · rw [hm] at h
        simp at h
    · intro h
      subst h
      rfl
  · intro outs i h
    unfold highest_outcome at h
    rcases hm : maxByPriceLast outs.enum with _ | p
    · rw [hm] at h
      cases h
    · rw [hm] at h
      obtain ⟨i2, o⟩ := p
      simp at h
      subst h
      exact ⟨o, (maxByPriceLast_enum_spec outs).2 i2 o hm⟩

/-- C5 witness: the last-occurrence characterization instantiated at the
two-way tie of `stC5`, whose winner is index 1. -/
theorem C5_emit_highest_last_tie_witness :
    ∃ o, ((alookup stC5.outcomes 1).getD []).get? 1 = some o ∧
      (∀ j o', ((alookup stC5.outcomes 1).getD []).get? j = some o' →
        o'.price ≤ o.price) ∧
      (∀ j o', ((alookup stC5.outcomes 1).getD []).get? j = some o' →
        1 < j → o'.price < o.price) :=
  (C5_emit_highest_last_tie cfgA stC5 1).2.2
    ((alookup stC5.outcomes 1).getD []) 1 (by rfl)

/-! Shape lemmas for successful dispatches, used by the trace claims. -/

theorem reserve_fields {s s' : PalletState} {a : AccountId} {n : Nat}
    (h : reserve s a n = some s') :
    s'.now = s.now ∧ s'.marketCounter = s.marketCounter ∧
    s'.markets = s.markets ∧ s'.outcomes = s.outcomes ∧
    s'.marketIdsPerCloseBlock = s.marketIdsPerCloseBlock := by
  unfold reserve at h
  split at h
  · cases h
    simp [setFree, setReserved]
  · simp at h

theorem unreserve_core (s : PalletState) (a : AccountId) (n : Nat) :
    (unreserve s a n).now = s.now ∧
    (unreserve s a n).marketCounter = s.marketCounter ∧
    (unreserve s a n).markets = s.markets ∧
    (unreserve s a n).outcomes = s.outcomes ∧
    (unreserve s a n).marketIdsPerCloseBlock = s.marketIdsPerCloseBlock :=
  ⟨rfl, rfl, rfl, rfl, rfl⟩

theorem repatriate_core (s : PalletState) (a b : AccountId) (n : Nat) :
    (repatriate_reserved s a b n).now = s.now ∧
    (repatriate_reserved s a b n).marketCounter = s.marketCounter ∧
    (repatriate_reserved s a b n).markets = s.markets ∧
    (repatriate_reserved s a b n).outcomes = s.outcomes ∧
    (repatriate_reserved s a b n).marketIdsPerCloseBlock =
      s.marketIdsPerCloseBlock := by
  unfold repatriate_reserved
  split
  · exact ⟨rfl, rfl, rfl, rfl, rfl⟩
  · exact ⟨rfl, rfl, rfl, rfl, rfl⟩

theorem create_market_ok_fields (c : Config) (s : PalletState)
    (who : AccountId) (outcome_amount end_ : Nat) (oracle : AccountId)
    (s' : PalletState)
    (h : create_market c s who outcome_amount end_ oracle = Except.ok s') :
    s'.marketCounter = s.marketCounter + 1 ∧
    (∀ mid, mid ≠ s.marketCounter →
      alookup s'.markets mid = alookup s.markets mid) ∧
    (∀ mid, mid ≠ s.marketCounter →
      alookup s'.outcomes mid = alookup s.outcomes mid) := by
  unfold create_market at h
  dsimp only at h
  split at h
  · cases h
  split at h
  · cases h
  split at h
  · cases h
  split at h
  · cases h
  split at h
  next e heq => cases h
  next outs heq =>
    split at h
    · cases h
    next hbucket =>
      split at h
      next hres => cases h
      next s2 hres =>
        injection h with h1
        subst h1
        have hr := reserve_fields hres
        refine ⟨?_, ?_, ?_⟩
        · simp [hr.2.1]
        · intro mid hmid
          show alookup (ainsert s2.markets s.marketCounter _) mid = _
          rw [alookup_ainsert_ne _ _ _ _ hmid, hr.2.2.1]
        · intro mid hmid
          show alookup (ainsert s2.outcomes s.marketCounter _) mid = _
          rw [alookup_ainsert_ne _ _ _ _ hmid, hr.2.2.2.1]

theorem destroy_market_ok_shape (s : PalletState) (root : Bool) (mid : Nat)
    (s' : PalletState) (h : destroy_market s root mid = Except.ok s') :
    s' = { s with markets := aremove s.markets mid,
                  outcomes := aremove s.outcomes mid } := by
  unfold destroy_market at h
  split at h
  · cases h
  split at h
  · cases h
  · injection h with h1
    exact h1.symm

theorem report_as_oracle_ok_shape (s : PalletState) (who : AccountId)
    (mid idx : Nat) (s' : PalletState)
    (h : report_as_oracle s who mid idx = Except.ok s') :
    ∃ m, alookup s.markets mid = some m ∧ m.oracle_outcome_report = none ∧
      s' = { s with markets :=
                      ainsert s.markets mid
                        { m with oracle_outcome_report := some idx,
                                 status := MarketStatus.Reported } } := by
  unfold report_as_oracle at h
  split at h
  · cases h
  next m hm =>
    dsimp only at h
    split at h
    · cases h
    next hns =>
      split at h
      · cases h
      split at h
      · cases h
      · injection h with h1
        refine ⟨m, hm, ?_, h1.symm⟩
        cases hoo : m.oracle_outcome_report with
        | none => rfl
        | some j =>
          rw [hoo] at hns
          exact absurd rfl hns

theorem redeem_ok_shape (s : PalletState) (who : AccountId) (mid : Nat)
    (s' : PalletState) (h : redeem s who mid = Except.ok s') :
    ∃ m i o s1, alookup s.markets mid = some m ∧
      m.oracle_outcome_report = some i ∧
      ((alookup s.outcomes mid).getD []).get? i = some o ∧
      transfer s (market_account mid) o.owner
        (free_balance s (market_account mid)) = some s1 ∧
      s' = { s1 with markets :=
                       ainsert s1.markets mid
                         { m with status := MarketStatus.Redeemed } } := by
  unfold redeem at h
  split at h
  · cases h
  next m hm =>
    dsimp only at h
    split at h
    · cases h
    next i hi =>
      split at h
      · cases h
      next o ho =>
        split at h
        next htr => cases h
        next s1 htr =>
          injection h with h1
          exact ⟨m, i, o, s1, hm, hi, ho, htr, h1.symm⟩

theorem clear_storage_ok_shape (c : Config) (s : PalletState)
    (who : AccountId) (mid : Nat) (s' : PalletState)
    (h : clear_storage c s who mid = Except.ok s') :
    ∃ m s1, alookup s.markets mid = some m ∧
      m.status = MarketStatus.Redeemed ∧
      (s1 = repatriate_reserved s m.creator who m.bond ∨
       s1 = unreserve s m.creator m.bond) ∧
      s' = { s1 with markets := aremove s1.markets mid,
                     outcomes := aremove s1.outcomes mid } := by
  unfold clear_storage at h
  split at h
  · cases h
  next m hm =>
    dsimp only at h
    split at h
    · cases h
    next hst =>
      split at h
      · cases h
      next hauth =>
        injection h with h1
        by_cases hw : who ≠ m.creator
        · rw [if_pos hw] at h1
          exact ⟨m, _, hm, not_not.1 hst, Or.inl rfl, h1.symm⟩
        · rw [if_neg hw] at h1
          exact ⟨m, _, hm, not_not.1 hst, Or.inr rfl, h1.symm⟩

theorem buy_inner_ok_fields (c : Config) (s : PalletState) (who : AccountId)
    (mid idx pr : Nat) (s' : PalletState)
    (h : buy_outcome_inner c s who mid idx pr = Except.ok s') :
    s'.now = s.now ∧ s'.marketCounter = s.marketCounter ∧
    s'.markets = s.markets ∧ s'.outcomes = s.outcomes ∧
    s'.marketIdsPerCloseBlock = s.marketIdsPerCloseBlock := by
  unfold buy_outcome_inner at h
  dsimp only at h
  split at h
  · cases h
  split at h
  · cases h
  next market hm =>
    split at h
    · cases h
    next hstatus =>
      split at h
      · cases h
      next outcome hout =>
        split at h
        · cases h
        next hprice =>
          by_cases hz : outcome.price ≠ 0
          · rw [if_pos hz] at h
            cases htr : transfer s (market_account mid) outcome.owner
                outcome.price with
            | none =>
              rw [htr] at h
              dsimp only at h
              cases h
            | some sA =>
              rw [htr] at h
              dsimp only at h
              cases htr2 : transfer sA who (market_account mid) pr with
              | none =>
                rw [htr2] at h
                cases h
              | some sB =>
                rw [htr2] at h
                injection h with h1
                subst h1
                have f1 := transfer_fields htr
                have f2 := transfer_fields htr2
                refine ⟨?_, ?_, ?_, ?_, ?_⟩
                · rw [f2.1, f1.1]
                · rw [f2.2.1, f1.2.1]
                · rw [f2.2.2.1, f1.2.2.1]
                · rw [f2.2.2.2.1, f1.2.2.2.1]
                · rw [f2.2.2.2.2.1, f1.2.2.2.2.1]
          · rw [if_neg hz] at h
            dsimp only at h
            cases htr2 : transfer s who (market_account mid) pr with
            | none =>
              rw [htr2] at h
              cases h
            | some sB =>
              rw [htr2] at h
              injection h with h1
              subst h1
              have f2 := transfer_fields htr2
              exact ⟨f2.1, f2.2.1, f2.2.2.1, f2.2.2.2.1, f2.2.2.2.2.1⟩

theorem buy_outcome_ok_fields (c : Config) (s : PalletState) (who : AccountId)
    (mid idx pr : Nat) (s' : PalletState)
    (h : buy_outcome c s who mid idx pr = Except.ok s') :
    s'.now = s.now ∧ s'.marketCounter = s.marketCounter ∧
    s'.markets = s.markets ∧ s'.outcomes = s.outcomes ∧
    s'.marketIdsPerCloseBlock = s.marketIdsPerCloseBlock := by
  unfold buy_outcome at h
  cases hinner : buy_outcome_inner c s who mid idx pr with
  | ok s1 =>
    rw [hinner] at h
    injection h with h1
    subst h1
    exact buy_inner_ok_fields c s who mid idx pr s1 hinner
  | error p =>
    obtain ⟨e, sx⟩ := p
    rw [hinner] at h
    cases h

theorem closeMarkets_fields (ids : List Nat) : ∀ (s : PalletState) (mid : Nat),
    (closeMarkets s ids).1.now = s.now ∧
    (closeMarkets s ids).1.marketCounter = s.marketCounter ∧
    (closeMarkets s ids).1.outcomes = s.outcomes ∧
    (alookup (closeMarkets s ids).1.markets mid = alookup s.markets mid ∨
     ∃ m, alookup s.markets mid = some m ∧
       alookup (closeMarkets s ids).1.markets mid =
         some { m with status := MarketStatus.Closed }) := by
  induction ids with
  | nil =>
    intro s mid
    exact ⟨rfl, rfl, rfl, Or.inl rfl⟩
  | cons mid0 rest ih =>
    intro s mid
    unfold closeMarkets
    cases hm0 : alookup s.markets mid0 with
    | none =>
      dsimp only
      exact ih s mid
    | some market =>
      dsimp only
      obtain ⟨h1, h2, h3, h4⟩ :=
        ih { s with markets := ainsert s.markets mid0 { market with status := MarketStatus.Closed } } mid
      refine ⟨by rw [h1], by rw [h2], by rw [h3], ?_⟩
      by_cases hmid : mid = mid0
      · subst hmid
        rcases h4 with h4 | ⟨m2, hm2, h4⟩
        · right
          refine ⟨market, hm0, ?_⟩
          rw [h4]
          exact alookup_ainsert_self _ _ _
        · right
          rw [alookup_ainsert_self] at hm2
          injection hm2 with hm2'
          subst hm2'
          refine ⟨market, hm0, ?_⟩
          rw [h4]
      · have hne : alookup (ainsert s.markets mid0
            { market with status := MarketStatus.Closed }) mid =
            alookup s.markets mid := alookup_ainsert_ne _ _ _ _ hmid
        rcases h4 with h4 | ⟨m2, hm2, h4⟩
        · left
          rw [h4, hne]
        · right
          rw [hne] at hm2
          exact ⟨m2, hm2, h4⟩

theorem on_initialize_impl_fields (s : PalletState) (n : Nat) (mid : Nat) :
    (on_initialize_impl s n).1.now = s.now ∧
    (on_initialize_impl s n).1.marketCounter = s.marketCounter ∧
    (on_initialize_impl s n).1.outcomes = s.outcomes ∧
    (alookup (on_initialize_impl s n).1.markets mid = alookup s.markets mid ∨
     ∃ m, alookup s.markets mid = some m ∧
       alookup (on_initialize_impl s n).1.markets mid =
         some { m with status := MarketStatus.Closed }) := by
  obtain ⟨h1, h2, h3, h4⟩ :=
    closeMarkets_fields ((alookup s.marketIdsPerCloseBlock n).getD []) s mid
  exact ⟨h1, h2, h3, h4⟩

/-- Every operation either leaves the market counter unchanged, or is a
successful create and advances it by exactly one. -/
theorem applyOp_counter (c : Config) (s : PalletState) (op : Op) :
    (applyOp c s op).marketCounter = s.marketCounter ∨
    (∃ who n e o, op = Op.create who n e o ∧
      isOkE (create_market c s who n e o) = true ∧
      (applyOp c s op).marketCounter = s.marketCounter + 1) := by
  cases op with
  | create who n e o =>
    cases hres : create_market c s who n e o with
    | ok s1 =>
      right
      refine ⟨who, n, e, o, rfl, by rw [hres]; rfl, ?_⟩
      show (settle s (create_market c s who n e o)).marketCounter = _
      rw [hres]
      exact (create_market_ok_fields c s who n e o s1 hres).1
    | error p =>
      left
      show (settle s (create_market c s who n e o)).marketCounter = _
      rw [hres]
      rfl
  | destroy root mid =>
    left
    cases hres : destroy_market s root mid with
    | ok s1 =>
      show (settle s (destroy_market s root mid)).marketCounter = _
      rw [hres, destroy_market_ok_shape s root mid s1 hres]
      rfl
    | error p =>
      show (settle s (destroy_market s root mid)).marketCounter = _
      rw [hres]
      rfl
  | buy who mid i p =>
    left
    cases hres : buy_outcome c s who mid i p with
    | ok s1 =>
      show (settle s (buy_outcome c s who mid i p)).marketCounter = _
      rw [hres]
      exact (buy_outcome_ok_fields c s who mid i p s1 hres).2.1
    | error q =>
      show (settle s (buy_outcome c s who mid i p)).marketCounter = _
      rw [hres]
      rfl
  | reportOp who mid i =>
    left
    cases hres : report_as_oracle s who mid i with
    | ok s1 =>
      show (settle s (report_as_oracle s who mid i)).marketCounter = _
      rw [hres]
      obtain ⟨m, hm, hrep, hsh⟩ := report_as_oracle_ok_shape s who mid i s1 hres
      rw [hsh]
      rfl
    | error q =>
      show (settle s (report_as_oracle s who mid i)).marketCounter = _
      rw [hres]
      rfl
  | redeemOp who mid =>
    left
    cases hres : redeem s who mid with
    | ok s1 =>
      show (settle s (redeem s who mid)).marketCounter = _
      rw [hres]
      obtain ⟨m, i, o, sA, hm, hi, ho, htr, hsh⟩ :=
        redeem_ok_shape s who mid s1 hres
      rw [hsh]
      show sA.marketCounter = _
      exact (transfer_fields htr).2.1
    | error q =>
      show (settle s (redeem s who mid)).marketCounter = _
      rw [hres]
      rfl
  | clearOp who mid =>
    left
    cases hres : clear_storage c s who mid with
    | ok s1 =>
      show (settle s (clear_storage c s who mid)).marketCounter = _
      rw [hres]
      obtain ⟨m, sA, hm, hst, hdi, hsh⟩ :=
        clear_storage_ok_shape c s who mid s1 hres
      rw [hsh]
      show sA.marketCounter = _
      rcases hdi with hdi | hdi
      · rw [hdi]
        exact (repatriate_core s m.creator who m.bond).2.1
      · rw [hdi]
        exact (unreserve_core s m.creator m.bond).2.1
    | error q =>
      show (settle s (clear_storage c s who mid)).marketCounter = _
      rw [hres]
      rfl
  | nextBlock =>
    left
    exact (on_initialize_impl_fields { s with now := s.now + 1 } (s.now + 1) 0).2.1

theorem applyOp_counter_mono (c : Config) (s : PalletState) (op : Op) :
    s.marketCounter ≤ (applyOp c s op).marketCounter := by
  rcases applyOp_counter c s op with h | ⟨_, _, _, _, _, _, h⟩ <;> omega

theorem applyOp_create_ok_counter (c : Config) (s : PalletState)
    (who : AccountId) (n e : Nat) (o : AccountId)
    (hok : isOkE (create_market c s who n e o) = true) :
    (applyOp c s (Op.create who n e o)).marketCounter = s.marketCounter + 1 := by
  cases hres : create_market c s who n e o with
  | ok s1 =>
    show (settle s (create_market c s who n e o)).marketCounter = _
    rw [hres]
    exact (create_market_ok_fields c s who n e o s1 hres).1
  | error p =>
    rw [hres] at hok
    cases hok

theorem applyOp_create_fail_state (c : Config) (s : PalletState)
    (who : AccountId) (n e : Nat) (o : AccountId)
    (hno : ¬ isOkE (create_market c s who n e o) = true) :
    applyOp c s (Op.create who n e o) = s := by
  cases hres : create_market c s who n e o with
  | ok s1 =>
    rw [hres] at hno
    exact absurd rfl hno
  | error p =>
    show settle s (create_market c s who n e o) = s
    rw [hres]
    rfl

/-- Every id in `createdIds` is at least the current counter. -/
theorem createdIds_ge (c : Config) (ops : List Op) : ∀ (s : PalletState)
    (i : Nat), i ∈ createdIds c s ops → s.marketCounter ≤ i := by
  induction ops with
  | nil =>
    intro s i hi
    cases hi
  | cons op rest ih =>
    intro s i hi
    have hmono := applyOp_counter_mono c s op
    cases op with
    | create who n e o =>
      unfold createdIds at hi
      dsimp only at hi
      by_cases hok : isOkE (create_market c s who n e o) = true
      · rw [if_pos hok] at hi
        rcases List.mem_cons.1 hi with hhead | htail
        · omega
        · exact le_trans hmono (ih _ i htail)
      · rw [if_neg hok] at hi
        exact le_trans hmono (ih _ i hi)
    | destroy root mid =>
      unfold createdIds at hi
      exact le_trans hmono (ih _ i hi)
    | buy who mid j p =>
      unfold createdIds at hi
      exact le_trans hmono (ih _ i hi)
    | reportOp who mid j =>
      unfold createdIds at hi
      exact le_trans hmono (ih _ i hi)
    | redeemOp who mid =>
      unfold createdIds at hi
      exact le_trans hmono (ih _ i hi)
    | clearOp who mid =>
      unfold createdIds at hi
      exact le_trans hmono (ih _ i hi)
    | nextBlock =>
      unfold createdIds at hi
      exact le_trans hmono (ih _ i hi)

theorem createdIds_pairwise (c : Config) (ops : List Op) :
    ∀ s : PalletState, List.Pairwise (· < ·) (createdIds c s ops) := by
  induction ops with
  | nil =>
    intro s
    exact List.Pairwise.nil
  | cons op rest ih =>
    intro s
    cases op with
    | create who n e o =>
      unfold createdIds
      dsimp only
      by_cases hok : isOkE (create_market c s who n e o) = true
      · rw [if_pos hok]
        refine List.Pairwise.cons ?_ (ih _)
        intro b hb
        have hge := createdIds_ge c rest _ b hb
        have hinc := applyOp_create_ok_counter c s who n e o hok
        omega
      · rw [if_neg hok]
        exact ih _
    | destroy root mid => exact ih _
    | buy who mid j p => exact ih _
    | reportOp who mid j => exact ih _
    | redeemOp who mid => exact ih _
    | clearOp who mid => exact ih _
    | nextBlock => exact ih _

theorem createdIds_head (c : Config) (ops : List Op) :
    ∀ (s : PalletState) (i : Nat),
      (createdIds c s ops).head? = some i → i = s.marketCounter := by
  induction ops with
  | nil =>
    intro s i hi
    cases hi
  | cons op rest ih =>
    intro s i hi
    cases op with
    | create who n e o =>
      unfold createdIds at hi
      dsimp only at hi
      by_cases hok : isOkE (create_market c s who n e o) = true
      · rw [if_pos hok] at hi
        injection hi with hi'
        exact hi'.symm
      · rw [if_neg hok] at hi
        rw [ih _ i hi, applyOp_create_fail_state c s who n e o hok]
    | destroy root mid =>
      refine (ih _ i hi).trans ?_
      rcases applyOp_counter c s (Op.destroy root mid) with h | ⟨_, _, _, _, h, _, _⟩
      · exact h
      · cases h
    | buy who mid j p =>
      refine (ih _ i hi).trans ?_
      rcases applyOp_counter c s (Op.buy who mid j p) with h | ⟨_, _, _, _, h, _, _⟩
      · exact h
      · cases h
    | reportOp who mid j =>
      refine (ih _ i hi).trans ?_
      rcases applyOp_counter c s (Op.reportOp who mid j) with h | ⟨_, _, _, _, h, _, _⟩
      · exact h
      · cases h
    | redeemOp who mid =>
      refine (ih _ i hi).trans ?_
      rcases applyOp_counter c s (Op.redeemOp who mid) with h | ⟨_, _, _, _, h, _, _⟩
      · exact h
      · cases h
    | clearOp who mid =>
      refine (ih _ i hi).trans ?_
      rcases applyOp_counter c s (Op.clearOp who mid) with h | ⟨_, _, _, _, h, _, _⟩
      · exact h
      · cases h
    | nextBlock =>
      refine (ih _ i hi).trans ?_
      rcases applyOp_counter c s Op.nextBlock with h | ⟨_, _, _, _, h, _, _⟩
      · exact h
      · cases h

/-- C8: across any operation trace starting from a counter of 1 (the
genesis default), the market ids assigned by successful creates are
strictly increasing with no repeats, and the first assigned id is 1; ids
are never reused because the counter never decreases, even across
destroys and clears. -/
theorem C8_market_ids_strictly_increasing (c : Config) (s : PalletState)
    (ops : List Op) (h1 : s.marketCounter = 1) :
    List.Pairwise (· < ·) (createdIds c s ops) ∧
    (∀ i, (createdIds c s ops).head? = some i → i = 1) := by
  refine ⟨createdIds_pairwise c ops s, ?_⟩
  intro i hi
  rw [createdIds_head c ops s i hi, h1]

/-- C8 witness: the theorem instantiated on the concrete trace `opsC8`
(two successful creates around a failed create and a destroy). -/
theorem C8_market_ids_strictly_increasing_witness :
    List.Pairwise (· < ·) (createdIds cfgA s0A opsC8) ∧
    (∀ i, (createdIds cfgA s0A opsC8).head? = some i → i = 1) :=
  C8_market_ids_strictly_increasing cfgA s0A opsC8 (by rfl)

/-- One step preserves the poisoned-market predicate: no operation can
bring the report back in range, flip the status to `Redeemed`, or reuse
the id. -/
theorem lockedBad_applyOp (c : Config) (s : PalletState) (mid : Nat)
    (op : Op) (h : LockedBad s mid) : LockedBad (applyOp c s op) mid := by
  obtain ⟨hctr, hbad⟩ := h
  cases op with
  | create who n e o =>
    cases hres : create_market c s who n e o with
    | error p =>
      have happ : applyOp c s (Op.create who n e o) = s := by
        show settle s (create_market c s who n e o) = s
        rw [hres]
        rfl
      rw [happ]
      exact ⟨hctr, hbad⟩
    | ok s1 =>
      have happ : applyOp c s (Op.create who n e o) = s1 := by
        show settle s (create_market c s who n e o) = s1
        rw [hres]
        rfl
      rw [happ]
      obtain ⟨hc1, hmk, hoc⟩ := create_market_ok_fields c s who n e o s1 hres
      have hne : mid ≠ s.marketCounter := by omega
      refine ⟨by omega, ?_⟩
      intro m hm
      rw [hmk mid hne] at hm
      rw [hoc mid hne]
      exact hbad m hm
  | destroy root mid0 =>
    cases hres : destroy_market s root mid0 with
    | error p =>
      have happ : applyOp c s (Op.destroy root mid0) = s := by
        show settle s (destroy_market s root mid0) = s
        rw [hres]
        rfl
      rw [happ]
      exact ⟨hctr, hbad⟩
    | ok s1 =>
      have happ : applyOp c s (Op.destroy root mid0) = s1 := by
        show settle s (destroy_market s root mid0) = s1
        rw [hres]
        rfl
      rw [happ, destroy_market_ok_shape s root mid0 s1 hres]
      refine ⟨hctr, ?_⟩
      intro m hm
      by_cases hx : mid = mid0
      · subst hx
        rw [show alookup (aremove s.markets mid) mid = none from
          alookup_aremove_self _ _] at hm
        cases hm
      · rw [show alookup (aremove s.markets mid0) mid = alookup s.markets mid from
          alookup_aremove_ne _ _ _ hx] at hm
        have hres2 := hbad m hm
        rw [show alookup (aremove s.outcomes mid0) mid = alookup s.outcomes mid from
          alookup_aremove_ne _ _ _ hx]
        exact hres2
  | buy who mid0 j p =>
    cases hres : buy_outcome c s who mid0 j p with
    | error q =>
      have happ : applyOp c s (Op.buy who mid0 j p) = s := by
        show settle s (buy_outcome c s who mid0 j p) = s
        rw [hres]
        rfl
      rw [happ]
      exact ⟨hctr, hbad⟩
    | ok s1 =>
      have happ : applyOp c s (Op.buy who mid0 j p) = s1 := by
        show settle s (buy_outcome c s who mid0 j p) = s1
        rw [hres]
        rfl
      rw [happ]
      obtain ⟨f1, f2, f3, f4, f5⟩ := buy_outcome_ok_fields c s who mid0 j p s1 hres
      refine ⟨by omega, ?_⟩
      intro m hm
      rw [f3] at hm
      rw [f4]
      exact hbad m hm
  | reportOp who mid0 j =>
    cases hres : report_as_oracle s who mid0 j with
    | error q =>
      have happ : applyOp c s (Op.reportOp who mid0 j) = s := by
        show settle s (report_as_oracle s who mid0 j) = s
        rw [hres]
        rfl
      rw [happ]
      exact ⟨hctr, hbad⟩
    | ok s1 =>
      have happ : applyOp c s (Op.reportOp who mid0 j) = s1 := by
        show settle s (report_as_oracle s who mid0 j) = s1
        rw [hres]
        rfl
      rw [happ]
      obtain ⟨m0, hm0, hrep0, hsh⟩ :=
        report_as_oracle_ok_shape s who mid0 j s1 hres
      subst hsh
      by_cases hx : mid = mid0
      · subst hx
        obtain ⟨⟨i0, hi0, _⟩, _⟩ := hbad m0 hm0
        rw [hrep0] at hi0
        cases hi0
      · refine ⟨hctr, ?_⟩
        intro m hm
        rw [show alookup (ainsert s.markets mid0 _) mid = alookup s.markets mid
          from alookup_ainsert_ne _ _ _ _ hx] at hm
        exact hbad m hm
  | redeemOp who mid0 =>
    cases hres : redeem s who mid0 with
    | error q =>
      have happ : applyOp c s (Op.redeemOp who mid0) = s := by
        show settle s (redeem s who mid0) = s
        rw [hres]
        rfl
      rw [happ]
      exact ⟨hctr, hbad⟩
    | ok s1 =>
      have happ : applyOp c s (Op.redeemOp who mid0) = s1 := by
        show settle s (redeem s who mid0) = s1
        rw [hres]
        rfl
      rw [happ]
      obtain ⟨m0, i0, o0, sA, hm0, hi0, ho0, htr, hsh⟩ :=
        redeem_ok_shape s who mid0 s1 hres
      subst hsh
      obtain ⟨t1, t2, t3, t4, t5, t6⟩ := transfer_fields htr
      by_cases hx : mid = mid0
      · subst hx
        obtain ⟨⟨i1, hi1, hlen⟩, _⟩ := hbad m0 hm0
        rw [hi0] at hi1
        injection hi1 with hi1'
        subst hi1'
        have := (List.get?_eq_some.1 ho0).1
        omega
      · refine ⟨by show mid < sA.marketCounter; omega, ?_⟩
        intro m hm
        rw [show alookup (ainsert sA.markets mid0 _) mid = alookup sA.markets mid
          from alookup_ainsert_ne _ _ _ _ hx, t3] at hm
        show (∃ i, m.oracle_outcome_report = some i ∧
          ((alookup sA.outcomes mid).getD []).length ≤ i) ∧
          m.status ≠ MarketStatus.Redeemed
        rw [t4]
        exact hbad m hm
  | clearOp who mid0 =>
    cases hres : clear_storage c s who mid0 with
    | error q =>
      have happ : applyOp c s (Op.clearOp who mid0) = s := by
        show settle s (clear_storage c s who mid0) = s
        rw [hres]
        rfl
      rw [happ]
      exact ⟨hctr, hbad⟩
    | ok s1 =>
      have happ : applyOp c s (Op.clearOp who mid0) = s1 := by
        show settle s (clear_storage c s who mid0) = s1
        rw [hres]
        rfl
      rw [happ]
      obtain ⟨m0, sA, hm0, hst0, hdi, hsh⟩ :=
        clear_storage_ok_shape c s who mid0 s1 hres
      subst hsh
      have hcore : sA.marketCounter = s.marketCounter ∧ sA.markets = s.markets ∧
          sA.outcomes = s.outcomes := by
        rcases hdi with hdi | hdi
        · rw [hdi]
          exact ⟨(repatriate_core s m0.creator who m0.bond).2.1,
            (repatriate_core s m0.creator who m0.bond).2.2.1,
            (repatriate_core s m0.creator who m0.bond).2.2.2.1⟩
        · rw [hdi]
          exact ⟨(unreserve_core s m0.creator m0.bond).2.1,
            (unreserve_core s m0.creator m0.bond).2.2.1,
            (unreserve_core s m0.creator m0.bond).2.2.2.1⟩
      by_cases hx : mid = mid0
      · subst hx
        obtain ⟨_, hnr⟩ := hbad m0 hm0
        exact absurd hst0 hnr
      · refine ⟨by show mid < sA.marketCounter; omega, ?_⟩
        intro m hm
        rw [show alookup (aremove sA.markets mid0) mid = alookup sA.markets mid
          from alookup_aremove_ne _ _ _ hx, hcore.2.1] at hm
        show (∃ i, m.oracle_outcome_report = some i ∧
          ((alookup (aremove sA.outcomes mid0) mid).getD []).length ≤ i) ∧
          m.status ≠ MarketStatus.Redeemed
        rw [show alookup (aremove sA.outcomes mid0) mid = alookup sA.outcomes mid
          from alookup_aremove_ne _ _ _ hx, hcore.2.2]
        exact hbad m hm
  | nextBlock =>
    obtain ⟨h1, h2, h3, h4⟩ :=
      on_initialize_impl_fields { s with now := s.now + 1 } (s.now + 1) mid
    refine ⟨by rw [show (applyOp c s Op.nextBlock).marketCounter =
      ({ s with now := s.now + 1 } : PalletState).marketCounter from h2]; exact hctr, ?_⟩
    intro m hm
    show (∃ i, m.oracle_outcome_report = some i ∧
      ((alookup (applyOp c s Op.nextBlock).outcomes mid).getD []).length ≤ i) ∧
      m.status ≠ MarketStatus.Redeemed
    rw [show (applyOp c s Op.nextBlock).outcomes =
      ({ s with now := s.now + 1 } : PalletState).outcomes from h3]
    rcases h4 with h4 | ⟨m0, hm0, h4⟩
    · have hm' : alookup s.markets mid = some m := by
        rw [← h4]
        exact hm
      exact hbad m hm'
    · have hm' : alookup (applyOp c s Op.nextBlock).markets mid =
          some { m0 with status := MarketStatus.Closed } := h4
      rw [hm'] at hm
      injection hm with hm2
      subst hm2
      obtain ⟨⟨i0, hi0, hlen⟩, _⟩ := hbad m0 hm0
      refine ⟨⟨i0, hi0, hlen⟩, ?_⟩
      intro hcon
      cases hcon

theorem lockedBad_runOps (c : Config) (ops : List Op) :
    ∀ (s : PalletState) (mid : Nat),
      LockedBad s mid → LockedBad (runOps c s ops) mid := by
  induction ops with
  | nil =>
    intro s mid h
    exact h
  | cons op rest ih =>
    intro s mid h
    exact ih (applyOp c s op) mid (lockedBad_applyOp c s mid op h)

theorem redeem_fails_of_lockedBad (s : PalletState) (mid : Nat)
    (who : AccountId) (h : LockedBad s mid) :
    isOkE (redeem s who mid) = false ∧
    (∀ m, alookup s.markets mid = some m →
      redeem s who mid = Except.error (Error.InvalidOutcomeIndex, s)) := by
  cases hm : alookup s.markets mid with
  | none =>
    constructor
    · unfold redeem
      rw [hm]
      rfl
    · intro m hm2
      cases hm2
  | some m =>
    obtain ⟨⟨i, hi, hlen⟩, hst⟩ := h.2 m hm
    have hget : ((alookup s.outcomes mid).getD []).get? i = none :=
      List.get?_eq_none.2 hlen
    unfold redeem
    rw [hm]
    dsimp only
    rw [hi]
    dsimp only
    rw [hget]
    exact ⟨rfl, fun m' hm' => rfl⟩

theorem clear_fails_of_lockedBad (c : Config) (s : PalletState) (mid : Nat)
    (who : AccountId) (h : LockedBad s mid) :
    isOkE (clear_storage c s who mid) = false := by
  cases hm : alookup s.markets mid with
  | none =>
    unfold clear_storage
    rw [hm]
    rfl
  | some m =>
    obtain ⟨_, hst⟩ := h.2 m hm
    unfold clear_storage
    rw [hm]
    dsimp only
    rw [if_pos hst]
    rfl

/-- C10: once a market carries an oracle report whose index is out of
range for its (fixed) outcome list, then after any further operation trace
the condition persists, every `redeem` on it fails — with
`InvalidOutcomeIndex` while the market still exists (a privileged destroy
leaves only `MarketNotFound`) — its status never becomes `Redeemed`, and
`clear_storage` never succeeds, so escrow and bond stay locked. -/
theorem C10_bad_report_locks_market (c : Config) (s : PalletState)
    (mid : Nat) (ops : List Op) (h : LockedBad s mid) :
    LockedBad (runOps c s ops) mid ∧
    (∀ who, isOkE (redeem (runOps c s ops) who mid) = false) ∧
    (∀ who m, alookup (runOps c s ops).markets mid = some m →
      redeem (runOps c s ops) who mid =
        Except.error (Error.InvalidOutcomeIndex, runOps c s ops)) ∧
    (∀ m, alookup (runOps c s ops).markets mid = some m →
      m.status ≠ MarketStatus.Redeemed) ∧
    (∀ who, isOkE (clear_storage c (runOps c s ops) who mid) = false) := by
  have hL := lockedBad_runOps c ops s mid h
  refine ⟨hL, ?_, ?_, ?_, ?_⟩
  · intro who
    exact (redeem_fails_of_lockedBad _ mid who hL).1
  · intro who m hm
    exact (redeem_fails_of_lockedBad _ mid who hL).2 m hm
  · intro m hm
    exact (hL.2 m hm).2
  · intro who
    exact clear_fails_of_lockedBad c _ mid who hL

/-- C10 witness: after a redeem attempt, a block advance and a clear
attempt on the badly reported market 1 of `stC10`, redeem and clear still
fail. -/
theorem C10_bad_report_locks_market_witness :
    isOkE (redeem (runOps cfgA stC10 opsC10) (AccountId.user 2) 1) = false ∧
    isOkE (clear_storage cfgA (runOps cfgA stC10 opsC10)
      (AccountId.user 1) 1) = false := by
  have hbad : LockedBad stC10 1 := by
    refine ⟨by decide, ?_⟩
    intro m hm
    rw [show alookup stC10.markets 1 =
      some { creator := AccountId.user 1, bond := 5,
             data := List.replicate 32 0, end_ := 3,
             oracle := AccountId.user 3, oracle_outcome_report := some 5,
             status := MarketStatus.Reported } from rfl] at hm
    injection hm with hm2
    subst hm2
    exact ⟨⟨5, rfl, by decide⟩, by decide⟩
  exact ⟨(C10_bad_report_locks_market cfgA stC10 1 opsC10 hbad).2.1
      (AccountId.user 2),
    (C10_bad_report_locks_market cfgA stC10 1 opsC10 hbad).2.2.2.2
      (AccountId.user 1)⟩
